import Mathlib

/-!
Verification development for the Xiangqi (Chinese chess) rule engine of this
repository (`chess_rules.py`).  The Python classes `Piece`, `Move` and `Board`
and the functions they use are shallow-embedded below; the Python mutations of
`Board` become pure state-passing functions.  `make_move` raises on an empty
source square in the source, so here it returns `Option (Board × Option Piece)`
with `none` standing for the raised `ValueError`.
-/

namespace XiangqiRules

/-- Piece color; `'r'` (red) or `'b'` (black) in the source. -/
inductive Color where
  | r
  | b
deriving DecidableEq

/-- Toggling of `side_to_move`: `'b' if side == 'r' else 'r'`. -/
def Color.other : Color → Color
  | .r => .b
  | .b => .r

/-- Piece types, `PIECE_TYPES = ('R','N','B','A','K','C','P')` in the source. -/
inductive PType where
  | R
  | N
  | B
  | A
  | K
  | C
  | P
deriving DecidableEq

/-- The `Piece` dataclass: color, type and a stable unique id. -/
structure Piece where
  color : Color
  ptype : PType
  pid : Nat
deriving DecidableEq

/-- Squares are `(row, col)` integer pairs as in the source. -/
abbrev Sq := Int × Int

/-- The `Move` dataclass. -/
structure Move where
  from_sq : Sq
  to_sq : Sq
  promote : Option PType
  comment : String
  is_variation : Bool
deriving DecidableEq

/-- `Move((r,c),(nr,nc))` with the dataclass defaults. -/
def mkMove (f t : Sq) : Move :=
  ⟨f, t, none, "", false⟩

/-- `ROWS = 10`. -/
def ROWS : Int := 10

/-- `COLS = 9`. -/
def COLS : Int := 9

/-- `in_bounds(r, c)`: `0 <= r < ROWS and 0 <= c < COLS`. -/
def in_bounds (r c : Int) : Bool :=
  decide (0 ≤ r ∧ r < ROWS ∧ 0 ≤ c ∧ c < COLS)

/-- The board grid `List[List[Optional[Piece]]]`, 10 rows of 9 columns. -/
abbrev Grid := List (List (Option Piece))

/-- Reading `self.board[r][c]` (used only where the source has established the
indices are in range, where it agrees with Python list indexing). -/
def gridGet (g : Grid) (sq : Sq) : Option Piece :=
  ((g.get? sq.1.toNat).bind (fun row => row.get? sq.2.toNat)).join

/-- Writing `self.board[r][c] = piece`. -/
def gridSet (g : Grid) (sq : Sq) (p : Option Piece) : Grid :=
  g.set sq.1.toNat (((g.get? sq.1.toNat).getD []).set sq.2.toNat p)

/-- One element of `_meta_history`, the dict pushed by `make_move`. -/
structure Meta where
  moved_pid : Nat
  captured : Bool
  gave_check : Bool
  chase_pair : Option (Nat × Nat)
  prev_halfmove : Nat
  moved_color : Color
deriving DecidableEq

/-- The mutable state of the Python `Board` object.  The history stacks grow at
the head (Python appends at the end and pops from the end). -/
structure Board where
  grid : Grid
  side_to_move : Color
  history : List (Move × Option Piece × Color)
  meta_history : List Meta
  halfmove_clock : Nat
deriving DecidableEq

/-- `Board.piece_at`: `None` off the board, else the grid entry. -/
def Board.piece_at (bd : Board) (sq : Sq) : Option Piece :=
  if in_bounds sq.1 sq.2 then gridGet bd.grid sq else none

/-- `Board.set_piece`: silently does nothing off the board. -/
def Board.set_piece (bd : Board) (sq : Sq) (p : Option Piece) : Board :=
  if in_bounds sq.1 sq.2 then { bd with grid := gridSet bd.grid sq p } else bd

/-- Row indices `range(ROWS)` as integers. -/
def rowIdxs : List Int := (List.range 10).map Int.ofNat

/-- Column indices `range(COLS)` as integers. -/
def colIdxs : List Int := (List.range 9).map Int.ofNat

/-- All board squares in the row-major scan order used by the source loops. -/
def allSquares : List Sq :=
  rowIdxs.flatMap (fun r => colIdxs.map (fun c => (r, c)))

/-- `Board.find_king`: first square in row-major order holding `color`'s king. -/
def find_king (g : Grid) (color : Color) : Option Sq :=
  allSquares.find? (fun sq =>
    match gridGet g sq with
    | some p => decide (p.color = color ∧ p.ptype = PType.K)
    | none => false)

/-- The four orthogonal directions `((1,0),(-1,0),(0,1),(0,-1))` used by the
Rook/Cannon/King loops. -/
def orthoDirs : List (Int × Int) := [(1, 0), (-1, 0), (0, 1), (0, -1)]

/-- The successive squares visited by a `while in_bounds(nr,nc)` walk starting
one step from `(r,c)` in direction `(dr,dc)`, cut off at the first square out
of bounds.  Ten steps of fuel always suffice on the 10×9 board with the unit
directions the source uses. -/
def raySteps : Nat → Int → Int → Int → Int → List Sq
  | 0, _, _, _, _ => []
  | n + 1, r, c, dr, dc =>
    if in_bounds (r + dr) (c + dc) then
      (r + dr, c + dc) :: raySteps n (r + dr) (c + dc) dr dc
    else []

/-- The squares a sliding walk from `(r,c)` in direction `(dr,dc)` visits. -/
def raySquares (r c dr dc : Int) : List Sq :=
  raySteps 10 r c dr dc

/-- The Rook branch of the ray loop in `_moves_for_piece`: empty squares are
destinations; the walk stops at the first occupied square, which is a
destination iff enemy-colored. -/
def rookRayMoves (g : Grid) (color : Color) (fr : Sq) : List Sq → List Move
  | [] => []
  | q :: rest =>
    match gridGet g q with
    | none => mkMove fr q :: rookRayMoves g color fr rest
    | some p => if p.color ≠ color then [mkMove fr q] else []

/-- The inner `while` of the Cannon branch of `_moves_for_piece`: past the
screen, skip empties and capture the first occupied square iff enemy. -/
def cannonScreenMoves (g : Grid) (color : Color) (fr : Sq) : List Sq → List Move
  | [] => []
  | q :: rest =>
    match gridGet g q with
    | none => cannonScreenMoves g color fr rest
    | some p => if p.color ≠ color then [mkMove fr q] else []

/-- The Cannon branch of the ray loop in `_moves_for_piece`: empty squares are
quiet destinations until the first occupied square (the screen); then captures
come from `cannonScreenMoves` on the squares beyond the screen. -/
def cannonRayMoves (g : Grid) (color : Color) (fr : Sq) : List Sq → List Move
  | [] => []
  | q :: rest =>
    match gridGet g q with
    | none => mkMove fr q :: cannonRayMoves g color fr rest
    | some _ => cannonScreenMoves g color fr rest

/-- The `knight_steps` table: (destination offset, leg offset) pairs. -/
def knightSteps : List ((Int × Int) × (Int × Int)) :=
  [((-2, -1), (-1, 0)), ((-2, 1), (-1, 0)),
   ((2, -1), (1, 0)), ((2, 1), (1, 0)),
   ((-1, -2), (0, -1)), ((1, -2), (0, -1)),
   ((-1, 2), (0, 1)), ((1, 2), (0, 1))]

/-- The Elephant diagonal offsets. -/
def elephantDirs : List (Int × Int) := [(-2, -2), (-2, 2), (2, -2), (2, 2)]

/-- The Advisor diagonal offsets. -/
def advisorDirs : List (Int × Int) := [(-1, -1), (-1, 1), (1, -1), (1, 1)]

/-- `can_capture(to_r, to_c)`: inside the board and empty or enemy-occupied. -/
def can_capture (g : Grid) (color : Color) (tr tc : Int) : Bool :=
  if in_bounds tr tc then
    match gridGet g (tr, tc) with
    | none => true
    | some tp => decide (tp.color ≠ color)
  else false

/-- Whether `tr` lies in the mover's palace rows and `tc` in the palace
columns (`PALACE_RED_ROWS`/`PALACE_BLACK_ROWS`/`PALACE_COLS`). -/
def inPalace (color : Color) (tr tc : Int) : Bool :=
  match color with
  | .r => decide (7 ≤ tr ∧ tr < 10 ∧ 3 ≤ tc ∧ tc < 6)
  | .b => decide (0 ≤ tr ∧ tr < 3 ∧ 3 ≤ tc ∧ tc < 6)

/-- `Board._moves_for_piece`: the pseudo-legal destinations of one piece. -/
def moves_for_piece (g : Grid) (sq : Sq) (piece : Piece) : List Move :=
  let r := sq.1
  let c := sq.2
  match piece.ptype with
  | .R => orthoDirs.flatMap (fun d => rookRayMoves g piece.color sq (raySquares r c d.1 d.2))
  | .C => orthoDirs.flatMap (fun d => cannonRayMoves g piece.color sq (raySquares r c d.1 d.2))
  | .N =>
    knightSteps.filterMap (fun sd =>
      let tr := r + sd.1.1
      let tc := c + sd.1.2
      let lr := r + sd.2.1
      let lc := c + sd.2.2
      if in_bounds tr tc then
        if in_bounds lr lc && (gridGet g (lr, lc)).isSome then none
        else if can_capture g piece.color tr tc then some (mkMove sq (tr, tc)) else none
      else none)
  | .B =>
    elephantDirs.filterMap (fun d =>
      let tr := r + d.1
      let tc := c + d.2
      let er := r + d.1 / 2
      let ec := c + d.2 / 2
      if in_bounds tr tc then
        if (piece.color = Color.r ∧ tr < 5) ∨ (piece.color = Color.b ∧ tr > 4) then none
        else if in_bounds er ec && (gridGet g (er, ec)).isSome then none
        else if can_capture g piece.color tr tc then some (mkMove sq (tr, tc)) else none
      else none)
  | .A =>
    advisorDirs.filterMap (fun d =>
      let tr := r + d.1
      let tc := c + d.2
      if in_bounds tr tc then
        if inPalace piece.color tr tc then
          if can_capture g piece.color tr tc then some (mkMove sq (tr, tc)) else none
        else none
      else none)
  | .K =>
    orthoDirs.filterMap (fun d =>
      let tr := r + d.1
      let tc := c + d.2
      if in_bounds tr tc then
        if inPalace piece.color tr tc then
          if can_capture g piece.color tr tc then some (mkMove sq (tr, tc)) else none
        else none
      else none)
  | .P =>
    let forward : Int := if piece.color = Color.r then -1 else 1
    let river_crossed : Bool :=
      match piece.color with
      | .r => decide (r < 5)
      | .b => decide (r > 4)
    let ahead :=
      if in_bounds (r + forward) c && can_capture g piece.color (r + forward) c then
        [mkMove sq (r + forward, c)]
      else []
    let sideways :=
      if river_crossed then
        ([-1, 1] : List Int).filterMap (fun dc =>
          if in_bounds r (c + dc) && can_capture g piece.color r (c + dc) then
            some (mkMove sq (r, c + dc))
          else none)
      else []
    ahead ++ sideways

/-- `Board.generate_pseudo_legal_moves(color)`: union over all own pieces in
row-major order. -/
def generate_pseudo_legal_moves (g : Grid) (color : Color) : List Move :=
  allSquares.flatMap (fun sq =>
    match gridGet g sq with
    | some p => if p.color = color then moves_for_piece g sq p else []
    | none => [])

/-- The rows strictly between rows `a` and `b` (the squares the flying-general
`while` loop of `is_in_check` inspects). -/
def betweenRows (a b : Int) : List Int :=
  rowIdxs.filter (fun rr => decide ((a < rr ∧ rr < b) ∨ (b < rr ∧ rr < a)))

/-- `Board.is_in_check(color)`: a missing king counts as check; otherwise any
opponent pseudo-legal move onto the king square, or the flying-general
condition (kings on one column with all squares strictly between empty). -/
def is_in_check (g : Grid) (color : Color) : Bool :=
  match find_king g color with
  | none => true
  | some king_sq =>
    if (generate_pseudo_legal_moves g color.other).any
        (fun mv => decide (mv.to_sq = king_sq)) then true
    else
      match find_king g color.other with
      | none => false
      | some ok_sq =>
        if king_sq.2 = ok_sq.2 then
          decide (∀ rr ∈ betweenRows king_sq.1 ok_sq.1, gridGet g (rr, king_sq.2) = none)
        else false

/-- The Rook branch of the attack scan in `_squares_attacked_by_piece`: the
first occupied square on the ray, collected iff enemy-occupied. -/
def rookRayAttack (g : Grid) (color : Color) : List Sq → List Sq
  | [] => []
  | q :: rest =>
    match gridGet g q with
    | none => rookRayAttack g color rest
    | some p => if p.color ≠ color then [q] else []

/-- The beyond-the-screen scan of the Cannon attack loop. -/
def cannonBeyondAttack (g : Grid) (color : Color) : List Sq → List Sq
  | [] => []
  | q :: rest =>
    match gridGet g q with
    | none => cannonBeyondAttack g color rest
    | some p => if p.color ≠ color then [q] else []

/-- The Cannon branch of the attack scan: skip until the screen, then collect
the first occupied square beyond it iff enemy-occupied. -/
def cannonRayAttack (g : Grid) (color : Color) : List Sq → List Sq
  | [] => []
  | q :: rest =>
    match gridGet g q with
    | none => cannonRayAttack g color rest
    | some _ => cannonBeyondAttack g color rest

/-- Whether the square holds a piece of the enemy color (the repeated
`tp is not None and tp.color != piece.color` test of the attack scan). -/
def holdsEnemy (g : Grid) (color : Color) (tr tc : Int) : Bool :=
  match gridGet g (tr, tc) with
  | some tp => decide (tp.color ≠ color)
  | none => false

/-- `Board._squares_attacked_by_piece(from_sq, piece)`: the squares the piece
can capture on right now, in the source's scan order. -/
def squares_attacked_by_piece (g : Grid) (from_sq : Sq) (piece : Piece) : List Sq :=
  let r := from_sq.1
  let c := from_sq.2
  match piece.ptype with
  | .R => orthoDirs.flatMap (fun d => rookRayAttack g piece.color (raySquares r c d.1 d.2))
  | .C => orthoDirs.flatMap (fun d => cannonRayAttack g piece.color (raySquares r c d.1 d.2))
  | .N =>
    knightSteps.filterMap (fun sd =>
      let tr := r + sd.1.1
      let tc := c + sd.1.2
      let lr := r + sd.2.1
      let lc := c + sd.2.2
      if in_bounds tr tc then
        if in_bounds lr lc && (gridGet g (lr, lc)).isSome then none
        else if holdsEnemy g piece.color tr tc then some (tr, tc) else none
      else none)
  | .B =>
    elephantDirs.filterMap (fun d =>
      let tr := r + d.1
      let tc := c + d.2
      let er := r + d.1 / 2
      let ec := c + d.2 / 2
      if in_bounds tr tc then
        if (piece.color = Color.r ∧ tr < 5) ∨ (piece.color = Color.b ∧ tr > 4) then none
        else if (gridGet g (er, ec)).isSome then none
        else if holdsEnemy g piece.color tr tc then some (tr, tc) else none
      else none)
  | .A =>
    advisorDirs.filterMap (fun d =>
      let tr := r + d.1
      let tc := c + d.2
      if in_bounds tr tc then
        if inPalace piece.color tr tc then
          if holdsEnemy g piece.color tr tc then some (tr, tc) else none
        else none
      else none)
  | .K =>
    orthoDirs.filterMap (fun d =>
      let tr := r + d.1
      let tc := c + d.2
      if in_bounds tr tc then
        if inPalace piece.color tr tc then
          if holdsEnemy g piece.color tr tc then some (tr, tc) else none
        else none
      else none)
  | .P =>
    let forward : Int := if piece.color = Color.r then -1 else 1
    let river_crossed : Bool :=
      match piece.color with
      | .r => decide (r < 5)
      | .b => decide (r > 4)
    let ahead :=
      if in_bounds (r + forward) c && holdsEnemy g piece.color (r + forward) c then
        [((r + forward : Int), c)]
      else []
    let sideways :=
      if river_crossed then
        ([-1, 1] : List Int).filterMap (fun dc =>
          if in_bounds r (c + dc) && holdsEnemy g piece.color r (c + dc) then
            some ((r : Int), c + dc)
          else none)
      else []
    ahead ++ sideways

/-- `Board.make_move(move)`: `none` models the `ValueError` raised when the
source square is empty; otherwise the updated board plus the captured piece. -/
def Board.make_move (bd : Board) (move : Move) : Option (Board × Option Piece) :=
  match bd.piece_at move.from_sq with
  | none => none
  | some piece =>
    let captured := bd.piece_at move.to_sq
    let side_before := bd.side_to_move
    let bd1 := (bd.set_piece move.to_sq (some piece)).set_piece move.from_sq none
    let bd2 : Board :=
      { bd1 with
        history := (move, captured, side_before) :: bd1.history
        side_to_move := side_before.other }
    let gave_check := is_in_check bd2.grid bd2.side_to_move
    let chase_pair : Option (Nat × Nat) :=
      if captured.isNone then
        match squares_attacked_by_piece bd2.grid move.to_sq piece with
        | [] => none
        | q :: _ =>
          match gridGet bd2.grid q with
          | some tp => if tp.color ≠ piece.color then some (piece.pid, tp.pid) else none
          | none => none
      else none
    let prev_half := bd.halfmove_clock
    let new_half := if captured.isNone then bd.halfmove_clock + 1 else 0
    let meta : Meta :=
      ⟨piece.pid, captured.isSome, gave_check, chase_pair, prev_half, side_before⟩
    some ({ bd2 with
            halfmove_clock := new_half
            meta_history := meta :: bd2.meta_history }, captured)

/-- `Board.undo_move()`: a silent no-op on empty history; otherwise pops both
stacks and restores the grid, side to move and halfmove clock. -/
def Board.undo_move (bd : Board) : Board :=
  match bd.history with
  | [] => bd
  | (move, captured, side_before) :: rest =>
    let piece := bd.piece_at move.to_sq
    let bd1 : Board := { bd with history := rest }
    let bd2 := (bd1.set_piece move.from_sq piece).set_piece move.to_sq captured
    let bd3 : Board := { bd2 with side_to_move := side_before }
    match bd3.meta_history with
    | [] => bd3
    | meta :: mrest =>
      { bd3 with meta_history := mrest, halfmove_clock := meta.prev_halfmove }

/-- The backward walk of `_is_long_check_after_last_move`: count consecutive
`gave_check` entries on `color`'s own turns (opponent turns are skipped without
breaking the streak); reaching `threshold` returns true, an own turn without a
check stops the walk. -/
def checkWalk (color : Color) (threshold : Nat) : List Meta → Nat → Bool
  | [], _ => false
  | m :: rest, cnt =>
    if m.moved_color = color then
      if m.gave_check then
        if threshold ≤ cnt + 1 then true else checkWalk color threshold rest (cnt + 1)
      else false
    else checkWalk color threshold rest cnt

/-- `Board._is_long_check_after_last_move(moved_color, threshold)`. -/
def Board.is_long_check_after_last_move (bd : Board) (moved_color : Color)
    (threshold : Nat) : Bool :=
  match bd.meta_history with
  | [] => false
  | last :: _ =>
    if last.gave_check = false ∨ last.moved_color ≠ moved_color then false
    else checkWalk moved_color threshold bd.meta_history 0

/-- The backward walk of `_is_long_chase_after_last_move`: count consecutive
entries on `color`'s own turns whose `chase_pair` equals `target`. -/
def chaseWalk (color : Color) (threshold : Nat) (target : Nat × Nat) :
    List Meta → Nat → Bool
  | [], _ => false
  | m :: rest, cnt =>
    if m.moved_color = color then
      if m.chase_pair = some target then
        if threshold ≤ cnt + 1 then true
        else chaseWalk color threshold target rest (cnt + 1)
      else false
    else chaseWalk color threshold target rest cnt

/-- `Board._is_long_chase_after_last_move(moved_color, threshold)`. -/
def Board.is_long_chase_after_last_move (bd : Board) (moved_color : Color)
    (threshold : Nat) : Bool :=
  match bd.meta_history with
  | [] => false
  | last :: _ =>
    if last.moved_color ≠ moved_color ∨ last.chase_pair = none then false
    else
      match last.chase_pair with
      | some target => chaseWalk moved_color threshold target bd.meta_history 0
      | none => false

/-- The per-candidate trial of `generate_legal_moves`: apply the move, then
require not-in-check and neither long-check nor long-chase for the mover.  The
unreachable empty-source case (pseudo-legal moves always have an occupied
source; in Python it would raise) yields `false`. -/
def legalProbe (bd : Board) (color : Color) (mv : Move) : Bool :=
  match bd.make_move mv with
  | none => false
  | some (bd2, _) =>
    !(is_in_check bd2.grid color) &&
      !(bd2.is_long_check_after_last_move color 3) &&
      !(bd2.is_long_chase_after_last_move color 3)

/-- `Board.generate_legal_moves(color)`. -/
def Board.generate_legal_moves (bd : Board) (color : Color) : List Move :=
  (generate_pseudo_legal_moves bd.grid color).filter (legalProbe bd color)

/-- `Board.is_checkmate(color)`: no legal moves while in check. -/
def Board.is_checkmate (bd : Board) (color : Color) : Bool :=
  (bd.generate_legal_moves color).isEmpty && is_in_check bd.grid color

/-- `Board.is_60_move_rule_draw()`: `halfmove_clock >= 120`. -/
def Board.is_60_move_rule_draw (bd : Board) : Bool :=
  decide (120 ≤ bd.halfmove_clock)

/-- `Board.game_result()`: draw, then checkmates, then stalemate-as-loss. -/
def Board.game_result (bd : Board) : Option String :=
  if bd.is_60_move_rule_draw then some ("d")
  else if bd.is_checkmate Color.r then some ("b+")
  else if bd.is_checkmate Color.b then some ("r+")
  else if (bd.generate_legal_moves Color.r).isEmpty then some ("b-")
  else if (bd.generate_legal_moves Color.b).isEmpty then some ("r-")
  else none

/-- `CN_NUM` as a total function (indices beyond 9 never occur). -/
def cnNum : Nat → String
  | 0 => "零"
  | 1 => "一"
  | 2 => "二"
  | 3 => "三"
  | 4 => "四"
  | 5 => "五"
  | 6 => "六"
  | 7 => "七"
  | 8 => "八"
  | 9 => "九"
  | _ => ""

/-- The `CHINESE_NAME` table. -/
def chineseName (color : Color) (ptype : PType) : String :=
  match color, ptype with
  | .r, .R => "车"
  | .r, .N => "马"
  | .r, .B => "相"
  | .r, .A => "仕"
  | .r, .K => "帅"
  | .r, .C => "炮"
  | .r, .P => "兵"
  | .b, .R => "車"
  | .b, .N => "馬"
  | .b, .B => "象"
  | .b, .A => "士"
  | .b, .K => "將"
  | .b, .C => "炮"
  | .b, .P => "卒"

/-- `col_label(c, color, use_cn)` inside `move_to_chinese`. -/
def col_label (c : Int) (color : Color) (use_cn : Bool) : String :=
  let num : Int := if color = Color.r then 9 - c else c + 1
  if use_cn then cnNum num.toNat else toString num

/-- The rows of `fr`'s column holding a same-color same-type piece, in
increasing row order (the order the collecting loop produces). -/
def sameColRows (g : Grid) (col : Int) (piece : Piece) : List Int :=
  rowIdxs.filter (fun rr =>
    match gridGet g (rr, col) with
    | some p => decide (p.color = piece.color ∧ p.ptype = piece.ptype)
    | none => false)

/-- The 前/后 disambiguation prefix of `move_to_chinese`: red sorts the
same-column pieces by ascending row, black descending, and compares `from_sq`
with the first. -/
def frontRearMark (g : Grid) (fr : Sq) (piece : Piece) : String :=
  let rowsUp := sameColRows g fr.2 piece
  if 1 < rowsUp.length then
    let sorted := if piece.color = Color.r then rowsUp else rowsUp.reverse
    match sorted with
    | first :: _ => if fr = ((first, fr.2) : Sq) then "前" else "后"
    | [] => ""
  else ""

/-- `Board.move_to_chinese(move)`: traditional Chinese notation, resolving the
mover through `from_sq` first. -/
def Board.move_to_chinese (bd : Board) (move : Move) : String :=
  let viaFrom := bd.piece_at move.from_sq
  let resolved := match viaFrom with
    | some p => some p
    | none => bd.piece_at move.to_sq
  match resolved with
  | none => "?"
  | some piece =>
    let name := chineseName piece.color piece.ptype
    let fr := move.from_sq
    let dst := move.to_sq
    let use_cn := decide (piece.color = Color.r)
    let mark := frontRearMark bd.grid fr piece
    let from_col := col_label fr.2 piece.color use_cn
    let to_col := col_label dst.2 piece.color use_cn
    let diff := dst.1 - fr.1
    let advances : Bool :=
      decide ((diff < 0 ∧ piece.color = Color.r) ∨ (diff > 0 ∧ piece.color = Color.b))
    let action := if advances then "进" else "退"
    match piece.ptype with
    | .N | .B | .A => mark ++ name ++ from_col ++ action ++ to_col
    | .R | .K | .C | .P =>
      if fr.2 = dst.2 then
        let step := diff.natAbs
        let step_label := if use_cn then cnNum step else toString step
        mark ++ name ++ from_col ++ action ++ step_label
      else mark ++ name ++ from_col ++ "平" ++ to_col

/-- The grid `set_start_position` builds; pids follow Python's creation order
in a fresh process (1..32). -/
def startGrid : Grid :=
  [[some ⟨.b, .R, 1⟩, some ⟨.b, .N, 2⟩, some ⟨.b, .B, 3⟩, some ⟨.b, .A, 4⟩,
    some ⟨.b, .K, 5⟩, some ⟨.b, .A, 6⟩, some ⟨.b, .B, 7⟩, some ⟨.b, .N, 8⟩,
    some ⟨.b, .R, 9⟩],
   [none, none, none, none, none, none, none, none, none],
   [none, some ⟨.b, .C, 10⟩, none, none, none, none, none, some ⟨.b, .C, 11⟩, none],
   [some ⟨.b, .P, 12⟩, none, some ⟨.b, .P, 13⟩, none, some ⟨.b, .P, 14⟩, none,
    some ⟨.b, .P, 15⟩, none, some ⟨.b, .P, 16⟩],
   [none, none, none, none, none, none, none, none, none],
   [none, none, none, none, none, none, none, none, none],
   [some ⟨.r, .P, 28⟩, none, some ⟨.r, .P, 29⟩, none, some ⟨.r, .P, 30⟩, none,
    some ⟨.r, .P, 31⟩, none, some ⟨.r, .P, 32⟩],
   [none, some ⟨.r, .C, 26⟩, none, none, none, none, none, some ⟨.r, .C, 27⟩, none],
   [none, none, none, none, none, none, none, none, none],
   [some ⟨.r, .R, 17⟩, some ⟨.r, .N, 18⟩, some ⟨.r, .B, 19⟩, some ⟨.r, .A, 20⟩,
    some ⟨.r, .K, 21⟩, some ⟨.r, .A, 22⟩, some ⟨.r, .B, 23⟩, some ⟨.r, .N, 24⟩,
    some ⟨.r, .R, 25⟩]]

/-- The board `set_start_position` leaves behind: start grid, red to move,
cleared stacks, zero halfmove clock. -/
def startBoard : Board :=
  ⟨startGrid, Color.r, [], [], 0⟩

/-- The meta entry `make_move(move)` pushes when the source square holds
`piece` (restating the dict literal from the body of `make_move`). -/
def moveMeta (bd : Board) (move : Move) (piece : Piece) : Meta :=
  let captured := bd.piece_at move.to_sq
  let g2 := ((bd.set_piece move.to_sq (some piece)).set_piece move.from_sq none).grid
  let gave_check := is_in_check g2 bd.side_to_move.other
  let chase_pair : Option (Nat × Nat) :=
    if captured.isNone then
      match squares_attacked_by_piece g2 move.to_sq piece with
      | [] => none
      | q :: _ =>
        match gridGet g2 q with
        | some tp => if tp.color ≠ piece.color then some (piece.pid, tp.pid) else none
        | none => none
    else none
  ⟨piece.pid, captured.isSome, gave_check, chase_pair, bd.halfmove_clock, bd.side_to_move⟩

/-- The board `make_move(move)` returns when the source square holds `piece`
(restating the final record from the body of `make_move`). -/
def moveResult (bd : Board) (move : Move) (piece : Piece) : Board :=
  let bd1 := (bd.set_piece move.to_sq (some piece)).set_piece move.from_sq none
  { grid := bd1.grid
    side_to_move := bd.side_to_move.other
    history := (move, bd.piece_at move.to_sq, bd.side_to_move) :: bd1.history
    meta_history := moveMeta bd move piece :: bd1.meta_history
    halfmove_clock :=
      if (bd.piece_at move.to_sq).isNone then bd.halfmove_clock + 1 else 0 }

/-- A well-formed grid: 10 rows of 9 columns, as every grid the source ever
builds (`set_start_position` and `set_piece` preserve this shape). -/
def WFGrid (g : Grid) : Prop :=
  g.length = 10 ∧ ∀ row ∈ g, row.length = 9

/-- How many of `color`'s most recent own-turn meta entries, scanning from the
most recent entry backwards and skipping the opponent's entries, consecutively
gave check.  This formalizes the claim's "gave check on each of its own most
recent turns". -/
def checkStreak (color : Color) : List Meta → Nat
  | [] => 0
  | m :: rest =>
    if m.moved_color = color then
      (if m.gave_check then checkStreak color rest + 1 else 0)
    else checkStreak color rest

/-- An empty grid row. -/
def emptyRow : List (Option Piece) :=
  [none, none, none, none, none, none, none, none, none]

/-- A sparse test grid: only the two kings, black at (0,4) and red at (9,3). -/
def kingsGrid : Grid :=
  [[none, none, none, none, some ⟨.b, .K, 1⟩, none, none, none, none],
   emptyRow, emptyRow, emptyRow, emptyRow, emptyRow, emptyRow, emptyRow, emptyRow,
   [none, none, none, some ⟨.r, .K, 2⟩, none, none, none, none, none]]

/-- A grid with both kings on column 4 and nothing between them. -/
def facingKingsGrid : Grid :=
  [[none, none, none, none, some ⟨.b, .K, 1⟩, none, none, none, none],
   emptyRow, emptyRow, emptyRow, emptyRow, emptyRow, emptyRow, emptyRow, emptyRow,
   [none, none, none, none, some ⟨.r, .K, 2⟩, none, none, none, none]]

/-- The board with the two facing kings. -/
def facingKingsBoard : Board := ⟨facingKingsGrid, Color.r, [], [], 0⟩

/-- Kings plus a red rook at (5,0), used to exercise the perpetual-check
filter. -/
def perpetualGrid : Grid :=
  [[none, none, none, none, some ⟨.b, .K, 1⟩, none, none, none, none],
   emptyRow, emptyRow, emptyRow, emptyRow,
   [some ⟨.r, .R, 3⟩, none, none, none, none, none, none, none, none],
   emptyRow, emptyRow, emptyRow,
   [none, none, none, some ⟨.r, .K, 2⟩, none, none, none, none, none]]

/-- A meta entry recording that red gave check without capturing. -/
def redCheckMeta : Meta := ⟨3, false, true, none, 0, Color.r⟩

/-- A board whose meta history shows red checked on each of its last two
turns, so that one more red check reaches the threshold of 3. -/
def perpetualBoard : Board :=
  ⟨perpetualGrid, Color.r,
   [(mkMove (0, 0) (5, 0), none, Color.r), (mkMove (5, 0) (0, 0), none, Color.r)],
   [redCheckMeta, redCheckMeta], 0⟩

/-- The rook-and-kings board with clean stacks, used for the round-trip
counterexample and witness. -/
def c1Board : Board := ⟨perpetualGrid, Color.r, [], [], 0⟩

/-- A board with a red cannon at (5,0), a black pawn screen at (5,3), and a
black rook target at (5,6). -/
def cannonTestBoard : Board :=
  ⟨[[none, none, none, none, some ⟨.b, .K, 1⟩, none, none, none, none],
    emptyRow, emptyRow, emptyRow, emptyRow,
    [some ⟨.r, .C, 3⟩, none, none, some ⟨.b, .P, 4⟩, none, none,
     some ⟨.b, .R, 5⟩, none, none],
    emptyRow, emptyRow, emptyRow,
    [none, none, none, some ⟨.r, .K, 2⟩, none, none, none, none, none]],
   Color.r, [], [], 0⟩

/-- The kings-only board with a halfmove clock of 119. -/
def kingsBoard119 : Board := ⟨kingsGrid, Color.r, [], [], 119⟩

/-- The kings-only board with a halfmove clock of 120. -/
def kingsBoard120 : Board := ⟨kingsGrid, Color.r, [], [], 120⟩

/-- The `k`-th square along the ray from `(r,c)` in direction `(dr,dc)`. -/
def raySq (r c dr dc : Int) (k : Nat) : Sq :=
  (r + k * dr, c + k * dc)

/-- The first `n` squares along a ray (proof-side view of the walk's prefix). -/
def stepList (r c dr dc : Int) : Nat → List Sq
  | 0 => []
  | k + 1 => (r + dr, c + dc) :: stepList (r + dr) (c + dc) dr dc k

/-! ### Helper lemmas -/

theorem set_piece_grid (bd : Board) (sq : Sq) (p : Option Piece) :
    (bd.set_piece sq p).grid =
      if in_bounds sq.1 sq.2 then gridSet bd.grid sq p else bd.grid := by
  unfold Board.set_piece
  split <;> rfl

theorem set_piece_side (bd : Board) (sq : Sq) (p : Option Piece) :
    (bd.set_piece sq p).side_to_move = bd.side_to_move := by
  unfold Board.set_piece
  split <;> rfl

theorem set_piece_history (bd : Board) (sq : Sq) (p : Option Piece) :
    (bd.set_piece sq p).history = bd.history := by
  unfold Board.set_piece
  split <;> rfl

theorem set_piece_meta (bd : Board) (sq : Sq) (p : Option Piece) :
    (bd.set_piece sq p).meta_history = bd.meta_history := by
  unfold Board.set_piece
  split <;> rfl

theorem set_piece_halfmove (bd : Board) (sq : Sq) (p : Option Piece) :
    (bd.set_piece sq p).halfmove_clock = bd.halfmove_clock := by
  unfold Board.set_piece
  split <;> rfl

theorem make_move_eq (bd : Board) (m : Move) (piece : Piece)
    (hsrc : bd.piece_at m.from_sq = some piece) :
    bd.make_move m = some (moveResult bd m piece, bd.piece_at m.to_sq) := by
  unfold Board.make_move
  rw [hsrc]
  rfl

theorem moveResult_meta (bd : Board) (m : Move) (piece : Piece) :
    (moveResult bd m piece).meta_history = moveMeta bd m piece :: bd.meta_history := by
  simp [moveResult, set_piece_meta]

theorem mem_ite_singleton {α : Type} {c : Bool} {x q : α}
    (h : q ∈ (if c = true then [x] else [])) : c = true ∧ q = x := by
  cases c
  · simp at h
  · simp at h
    exact ⟨rfl, h⟩

theorem mem_ite_nil {α : Type} {c : Bool} {l : List α} {q : α}
    (h : q ∈ (if c = true then l else [])) : q ∈ l := by
  cases c
  · simp at h
  · simpa using h

theorem holdsEnemy_spec (g : Grid) (color : Color) (tr tc : Int)
    (h : holdsEnemy g color tr tc = true) :
    ∃ tp, gridGet g (tr, tc) = some tp ∧ tp.color ≠ color := by
  unfold holdsEnemy at h
  cases hg : gridGet g (tr, tc) with
  | none => rw [hg] at h; exact Bool.noConfusion h
  | some tp =>
    rw [hg] at h
    exact ⟨tp, rfl, of_decide_eq_true h⟩

theorem rookRayAttack_enemy (g : Grid) (color : Color) :
    ∀ (l : List Sq) (q : Sq), q ∈ rookRayAttack g color l →
      ∃ tp, gridGet g q = some tp ∧ tp.color ≠ color := by
  intro l
  induction l with
  | nil =>
    intro q hq
    simp [rookRayAttack] at hq
  | cons a rest ih =>
    intro q hq
    unfold rookRayAttack at hq
    split at hq
    · exact ih q hq
    · rename_i p hga
      split at hq
      · rename_i hpc
        simp only [List.mem_singleton] at hq
        subst hq
        exact ⟨p, hga, hpc⟩
      · simp at hq

theorem cannonBeyondAttack_enemy (g : Grid) (color : Color) :
    ∀ (l : List Sq) (q : Sq), q ∈ cannonBeyondAttack g color l →
      ∃ tp, gridGet g q = some tp ∧ tp.color ≠ color := by
  intro l
  induction l with
  | nil =>
    intro q hq
    simp [cannonBeyondAttack] at hq
  | cons a rest ih =>
    intro q hq
    unfold cannonBeyondAttack at hq
    split at hq
    · exact ih q hq
    · rename_i p hga
      split at hq
      · rename_i hpc
        simp only [List.mem_singleton] at hq
        subst hq
        exact ⟨p, hga, hpc⟩
      · simp at hq

theorem cannonRayAttack_enemy (g : Grid) (color : Color) :
    ∀ (l : List Sq) (q : Sq), q ∈ cannonRayAttack g color l →
      ∃ tp, gridGet g q = some tp ∧ tp.color ≠ color := by
  intro l
  induction l with
  | nil =>
    intro q hq
    simp [cannonRayAttack] at hq
  | cons a rest ih =>
    intro q hq
    unfold cannonRayAttack at hq
    split at hq
    · exact ih q hq
    · exact cannonBeyondAttack_enemy g color rest q hq

/-- Every square the attack scan collects holds an enemy piece (each `append`
in `_squares_attacked_by_piece` is guarded by an enemy-occupancy test). -/
theorem attacked_enemy (g : Grid) (from_sq : Sq) (piece : Piece) :
    ∀ q ∈ squares_attacked_by_piece g from_sq piece,
      ∃ tp, gridGet g q = some tp ∧ tp.color ≠ piece.color := by
  intro q hq
  unfold squares_attacked_by_piece at hq
  cases hpt : piece.ptype <;> rw [hpt] at hq <;> dsimp only at hq
  case R =>
    obtain ⟨d, _, hray⟩ := List.mem_flatMap.mp hq
    exact rookRayAttack_enemy g piece.color _ q hray
  case C =>
    obtain ⟨d, _, hray⟩ := List.mem_flatMap.mp hq
    exact cannonRayAttack_enemy g piece.color _ q hray
  case N =>
    obtain ⟨sd, _, hf⟩ := List.mem_filterMap.mp hq
    split at hf
    · split at hf
      · exact Option.noConfusion hf
      · split at hf
        · next hhe =>
          obtain ⟨tp, hg, hne⟩ := holdsEnemy_spec g piece.color _ _ hhe
          exact ⟨tp, Option.some.inj hf ▸ hg, hne⟩
        · exact Option.noConfusion hf
    · exact Option.noConfusion hf
  case B =>
    obtain ⟨d, _, hf⟩ := List.mem_filterMap.mp hq
    split at hf
    · split at hf
      · exact Option.noConfusion hf
      · split at hf
        · exact Option.noConfusion hf
        · split at hf
          · next hhe =>
            obtain ⟨tp, hg, hne⟩ := holdsEnemy_spec g piece.color _ _ hhe
            exact ⟨tp, Option.some.inj hf ▸ hg, hne⟩
          · exact Option.noConfusion hf
    · exact Option.noConfusion hf
  case A =>
    obtain ⟨d, _, hf⟩ := List.mem_filterMap.mp hq
    split at hf
    · split at hf
      · split at hf
        · next hhe =>
          obtain ⟨tp, hg, hne⟩ := holdsEnemy_spec g piece.color _ _ hhe
          exact ⟨tp, Option.some.inj hf ▸ hg, hne⟩
        · exact Option.noConfusion hf
      · exact Option.noConfusion hf
    · exact Option.noConfusion hf
  case K =>
    obtain ⟨d, _, hf⟩ := List.mem_filterMap.mp hq
    split at hf
    · split at hf
      · split at hf
        · next hhe =>
          obtain ⟨tp, hg, hne⟩ := holdsEnemy_spec g piece.color _ _ hhe
          exact ⟨tp, Option.some.inj hf ▸ hg, hne⟩
        · exact Option.noConfusion hf
      · exact Option.noConfusion hf
    · exact Option.noConfusion hf
  case P =>
    rcases List.mem_append.mp hq with hah | hsd
    · obtain ⟨hcond, rfl⟩ := mem_ite_singleton hah
      rw [Bool.and_eq_true] at hcond
      exact holdsEnemy_spec g piece.color _ _ hcond.2
    · obtain ⟨dc, _, hf⟩ := List.mem_filterMap.mp (mem_ite_nil hsd)
      split at hf
      · next hcond =>
        rw [Bool.and_eq_true] at hcond
        obtain ⟨tp, hg, hne⟩ := holdsEnemy_spec g piece.color _ _ hcond.2
        exact ⟨tp, Option.some.inj hf ▸ hg, hne⟩
      · exact Option.noConfusion hf

theorem in_bounds_toNat (r c : Int) (h : in_bounds r c = true) :
    r.toNat < 10 ∧ c.toNat < 9 ∧ (r.toNat : Int) = r ∧ (c.toNat : Int) = c := by
  unfold in_bounds ROWS COLS at h
  have h2 := of_decide_eq_true h
  omega

theorem get?_gridSet (g : Grid) (sq : Sq) (p : Option Piece) (i : Nat) :
    (gridSet g sq p).get? i =
      if sq.1.toNat = i then (fun row => row.set sq.2.toNat p) <$> g.get? i
      else g.get? i := by
  unfold gridSet
  rw [List.get?_set]
  by_cases hi : sq.1.toNat = i
  · rw [if_pos hi, if_pos hi, ← hi]
    cases hg : g.get? sq.1.toNat with
    | none => rfl
    | some row => rfl
  · rw [if_neg hi, if_neg hi]

theorem row_of_wf (g : Grid) (hw : WFGrid g) (i : Nat) (hi : i < 10) :
    ∃ row, g.get? i = some row ∧ row.length = 9 := by
  have hlen : i < g.length := by
    rw [hw.1]
    exact hi
  exact ⟨g.get ⟨i, hlen⟩, List.get?_eq_get hlen, hw.2 _ (List.get_mem g i hlen)⟩

theorem gridGet_gridSet_self (g : Grid) (sq : Sq) (p : Option Piece)
    (hw : WFGrid g) (hin : in_bounds sq.1 sq.2 = true) :
    gridGet (gridSet g sq p) sq = p := by
  obtain ⟨h1, h2, _, _⟩ := in_bounds_toNat _ _ hin
  obtain ⟨row, hrow, hrlen⟩ := row_of_wf g hw sq.1.toNat h1
  unfold gridGet
  rw [get?_gridSet, if_pos rfl, hrow]
  show ((row.set sq.2.toNat p).get? sq.2.toNat).join = p
  rw [List.get?_set, if_pos rfl,
    List.get?_eq_get (show sq.2.toNat < row.length by omega)]
  rfl

theorem gridGet_gridSet_other (g : Grid) (sq sq' : Sq) (p : Option Piece)
    (hne : sq.1.toNat ≠ sq'.1.toNat ∨ sq.2.toNat ≠ sq'.2.toNat) :
    gridGet (gridSet g sq p) sq' = gridGet g sq' := by
  unfold gridGet
  rw [get?_gridSet]
  by_cases hr : sq.1.toNat = sq'.1.toNat
  · rw [if_pos hr]
    have hc : sq.2.toNat ≠ sq'.2.toNat := by
      rcases hne with h | h
      · exact absurd hr h
      · exact h
    cases hg : g.get? sq'.1.toNat with
    | none => rfl
    | some row =>
      show ((row.set sq.2.toNat p).get? sq'.2.toNat).join = (row.get? sq'.2.toNat).join
      rw [List.get?_set, if_neg hc]
  · rw [if_neg hr]

theorem WFGrid_gridSet (g : Grid) (sq : Sq) (p : Option Piece) (hw : WFGrid g) :
    WFGrid (gridSet g sq p) := by
  constructor
  · unfold gridSet
    rw [List.length_set]
    exact hw.1
  · intro row hrow
    unfold gridSet at hrow
    by_cases hi : sq.1.toNat < g.length
    · rcases List.mem_or_eq_of_mem_set hrow with h | h
      · exact hw.2 row h
      · subst h
        obtain ⟨row0, hrow0, hlen0⟩ := row_of_wf g hw sq.1.toNat (by
          rw [hw.1] at hi
          exact hi)
        rw [hrow0]
        show (row0.set sq.2.toNat p).length = 9
        rw [List.length_set]
        exact hlen0
    · rw [List.set_eq_of_length_le (by omega)] at hrow
      exact hw.2 row hrow

/-- Two well-formed grids with equal in-range cells are equal. -/
theorem grid_ext (g1 g2 : Grid) (h1 : WFGrid g1) (h2 : WFGrid g2)
    (h : ∀ i j : Nat, i < 10 → j < 9 →
      gridGet g1 (Int.ofNat i, Int.ofNat j) = gridGet g2 (Int.ofNat i, Int.ofNat j)) :
    g1 = g2 := by
  rw [List.ext_get?_iff]
  intro i
  by_cases hi : i < 10
  · obtain ⟨row1, hrow1, hlen1⟩ := row_of_wf g1 h1 i hi
    obtain ⟨row2, hrow2, hlen2⟩ := row_of_wf g2 h2 i hi
    rw [hrow1, hrow2]
    congr 1
    rw [List.ext_get?_iff]
    intro j
    by_cases hj : j < 9
    · have hcell := h i j hi hj
      unfold gridGet at hcell
      have etn : ∀ n : Nat, (Int.ofNat n).toNat = n := fun n => rfl
      simp only [etn] at hcell
      rw [hrow1, hrow2] at hcell
      simp only [Option.some_bind] at hcell
      rw [List.get?_eq_get (show j < row1.length by omega),
        List.get?_eq_get (show j < row2.length by omega)] at hcell ⊢
      exact congrArg some hcell
    · rw [List.get?_eq_none.mpr (by omega), List.get?_eq_none.mpr (by omega)]
  · rw [List.get?_eq_none.mpr (by rw [h1.1]; omega),
      List.get?_eq_none.mpr (by rw [h2.1]; omega)]

theorem raySq_shift (r c dr dc : Int) (k : Nat) :
    raySq (r + dr) (c + dc) dr dc k = raySq r c dr dc (k + 1) := by
  unfold raySq
  simp only [Prod.mk.injEq]
  constructor <;> (push_cast; ring)

theorem raySq_one (r c dr dc : Int) : raySq r c dr dc 1 = (r + dr, c + dc) := by
  unfold raySq
  simp

theorem raySq_add (r c dr dc : Int) (a b : Nat) :
    raySq (r + a * dr) (c + a * dc) dr dc b = raySq r c dr dc (a + b) := by
  unfold raySq
  simp only [Prod.mk.injEq]
  constructor <;> (push_cast; ring)

theorem mem_raySteps (dr dc : Int) :
    ∀ (fuel : Nat) (r c : Int) (q : Sq), q ∈ raySteps fuel r c dr dc →
      ∃ k : Nat, 1 ≤ k ∧ k ≤ fuel ∧ q = raySq r c dr dc k := by
  intro fuel
  induction fuel with
  | zero =>
    intro r c q hq
    simp [raySteps] at hq
  | succ f ih =>
    intro r c q hq
    unfold raySteps at hq
    split at hq
    · rcases List.mem_cons.mp hq with h | h
      · refine ⟨1, le_refl 1, by omega, ?_⟩
        rw [h, raySq_one]
      · obtain ⟨k, h1, h2, h3⟩ := ih (r + dr) (c + dc) q h
        refine ⟨k + 1, by omega, by omega, ?_⟩
        rw [h3, raySq_shift]
    · simp at hq

theorem mem_stepList (dr dc : Int) :
    ∀ (n : Nat) (r c : Int) (q : Sq), q ∈ stepList r c dr dc n →
      ∃ k : Nat, 1 ≤ k ∧ k ≤ n ∧ q = raySq r c dr dc k := by
  intro n
  induction n with
  | zero =>
    intro r c q hq
    simp [stepList] at hq
  | succ nn ih =>
    intro r c q hq
    rcases List.mem_cons.mp hq with h | h
    · refine ⟨1, le_refl 1, by omega, ?_⟩
      rw [h, raySq_one]
    · obtain ⟨k, h1, h2, h3⟩ := ih (r + dr) (c + dc) q h
      refine ⟨k + 1, by omega, by omega, ?_⟩
      rw [h3, raySq_shift]

theorem stepList_succ (dr dc : Int) :
    ∀ (n : Nat) (r c : Int),
      stepList r c dr dc (n + 1) = stepList r c dr dc n ++ [raySq r c dr dc (n + 1)] := by
  intro n
  induction n with
  | zero =>
    intro r c
    show [(r + dr, c + dc)] = [] ++ [raySq r c dr dc 1]
    rw [raySq_one]
    rfl
  | succ nn ih =>
    intro r c
    show (r + dr, c + dc) :: stepList (r + dr) (c + dc) dr dc (nn + 1) =
      ((r + dr, c + dc) :: stepList (r + dr) (c + dc) dr dc nn) ++ _
    rw [ih (r + dr) (c + dc), raySq_shift]
    simp

theorem raySteps_succ_eq (f : Nat) (r c dr dc : Int) :
    raySteps (f + 1) r c dr dc =
      if in_bounds (r + dr) (c + dc) = true then
        (r + dr, c + dc) :: raySteps f (r + dr) (c + dc) dr dc
      else [] := rfl

theorem cannonRayMoves_cons (g : Grid) (color : Color) (fr a : Sq) (rest : List Sq) :
    cannonRayMoves g color fr (a :: rest) =
      match gridGet g a with
      | none => mkMove fr a :: cannonRayMoves g color fr rest
      | some _ => cannonScreenMoves g color fr rest := rfl

theorem cannonScreenMoves_cons (g : Grid) (color : Color) (fr a : Sq) (rest : List Sq) :
    cannonScreenMoves g color fr (a :: rest) =
      match gridGet g a with
      | none => cannonScreenMoves g color fr rest
      | some p => if p.color ≠ color then [mkMove fr a] else [] := rfl

theorem raySteps_decomp (dr dc : Int) :
    ∀ (n fuel : Nat) (r c : Int), n ≤ fuel →
      (∀ k : Nat, 1 ≤ k → k ≤ n →
        in_bounds (raySq r c dr dc k).1 (raySq r c dr dc k).2 = true) →
      raySteps fuel r c dr dc =
        stepList r c dr dc n ++
          raySteps (fuel - n) (r + n * dr) (c + n * dc) dr dc := by
  intro n
  induction n with
  | zero =>
    intro fuel r c hle hin
    show raySteps fuel r c dr dc = [] ++ raySteps (fuel - 0) (r + (0 : Nat) * dr) (c + (0 : Nat) * dc) dr dc
    norm_num
  | succ nn ih =>
    intro fuel r c hle hin
    cases fuel with
    | zero => omega
    | succ f =>
      have h1 : in_bounds (r + dr) (c + dc) = true := by
        have h := hin 1 (le_refl 1) (by omega)
        rwa [raySq_one] at h
      have ih' := ih f (r + dr) (c + dc) (by omega) (by
        intro k hk1 hk2
        have h := hin (k + 1) (by omega) (by omega)
        rwa [← raySq_shift] at h)
      have e1 : r + dr + (nn : Int) * dr = r + ((nn + 1 : Nat) : Int) * dr := by
        push_cast
        ring
      have e2 : c + dc + (nn : Int) * dc = c + ((nn + 1 : Nat) : Int) * dc := by
        push_cast
        ring
      have e3 : f + 1 - (nn + 1) = f - nn := by omega
      rw [raySteps_succ_eq, if_pos h1, ih', e1, e2, e3]
      rfl

theorem cannonRayMoves_empties (g : Grid) (color : Color) (fr : Sq) :
    ∀ (pre l : List Sq), (∀ q ∈ pre, gridGet g q = none) →
      cannonRayMoves g color fr (pre ++ l) =
        pre.map (mkMove fr) ++ cannonRayMoves g color fr l := by
  intro pre
  induction pre with
  | nil =>
    intro l h
    simp
  | cons a rest ih =>
    intro l h
    have ha := h a (List.mem_cons_self a rest)
    show cannonRayMoves g color fr (a :: (rest ++ l)) = _
    simp only [cannonRayMoves_cons, ha]
    rw [ih l (fun q hq => h q (List.mem_cons_of_mem a hq))]
    simp

theorem cannonScreenMoves_empties (g : Grid) (color : Color) (fr : Sq) :
    ∀ (pre l : List Sq), (∀ q ∈ pre, gridGet g q = none) →
      cannonScreenMoves g color fr (pre ++ l) = cannonScreenMoves g color fr l := by
  intro pre
  induction pre with
  | nil =>
    intro l h
    simp
  | cons a rest ih =>
    intro l h
    have ha := h a (List.mem_cons_self a rest)
    show cannonScreenMoves g color fr (a :: (rest ++ l)) = _
    simp only [cannonScreenMoves_cons, ha]
    exact ih l (fun q hq => h q (List.mem_cons_of_mem a hq))

theorem cannonScreenMoves_to_sq (g : Grid) (color : Color) (fr : Sq) :
    ∀ (l : List Sq) (mv : Move), mv ∈ cannonScreenMoves g color fr l →
      mv.to_sq ∈ l := by
  intro l
  induction l with
  | nil =>
    intro mv hmv
    simp [cannonScreenMoves] at hmv
  | cons a rest ih =>
    intro mv hmv
    unfold cannonScreenMoves at hmv
    split at hmv
    · exact List.mem_cons_of_mem a (ih mv hmv)
    · split at hmv
      · simp only [List.mem_singleton] at hmv
        rw [hmv]
        exact List.mem_cons_self a rest
      · simp at hmv

theorem cannonRayMoves_to_sq (g : Grid) (color : Color) (fr : Sq) :
    ∀ (l : List Sq) (mv : Move), mv ∈ cannonRayMoves g color fr l →
      mv.to_sq ∈ l := by
  intro l
  induction l with
  | nil =>
    intro mv hmv
    simp [cannonRayMoves] at hmv
  | cons a rest ih =>
    intro mv hmv
    unfold cannonRayMoves at hmv
    split at hmv
    · rcases List.mem_cons.mp hmv with h | h
      · rw [h]
        exact List.mem_cons_self a rest
      · exact List.mem_cons_of_mem a (ih mv h)
    · exact List.mem_cons_of_mem a (cannonScreenMoves_to_sq g color fr rest mv hmv)

/-! ### Claim theorems -/

/-- C10: for every square outside the 10×9 board, `piece_at` returns `none`
and `set_piece` is a silent no-op leaving the whole board state unchanged.
(Both operations are total functions of the embedding, so neither "raises".) -/
theorem c10_out_of_bounds (bd : Board) (r c : Int) (p : Option Piece)
    (h : in_bounds r c = false) :
    bd.piece_at (r, c) = none ∧ bd.set_piece (r, c) p = bd := by
  constructor
  · unfold Board.piece_at
    simp [h]
  · unfold Board.set_piece
    simp [h]

/-- Witness for C10 at the concrete out-of-bounds square (10, 3). -/
theorem c10_witness :
    startBoard.piece_at (10, 3) = none ∧
      startBoard.set_piece (10, 3) (some ⟨Color.r, PType.R, 99⟩) = startBoard :=
  c10_out_of_bounds startBoard 10 3 (some ⟨Color.r, PType.R, 99⟩) (by decide)

/-- C9: `make_move` fails (returns `none`, modelling the raised `InvalidMove`)
exactly when the source square is empty — and being pure, the failing call
leaves the board unchanged — while `undo_move` on an empty history is a silent
no-op returning the board unchanged. -/
theorem c9_error_handling (bd : Board) (m : Move) :
    (bd.make_move m = none ↔ bd.piece_at m.from_sq = none) ∧
      (bd.history = [] → bd.undo_move = bd) := by
  constructor
  · unfold Board.make_move
    cases h : bd.piece_at m.from_sq <;> simp [h]
  · intro h
    unfold Board.undo_move
    rw [h]

/-- Witness for C9: an empty-history board is unchanged by `undo_move`, and
`make_move` from the empty square (4, 4) of the start position fails. -/
theorem c9_witness :
    startBoard.undo_move = startBoard ∧
      startBoard.make_move (mkMove (4, 4) (5, 4)) = none :=
  ⟨(c9_error_handling startBoard (mkMove (4, 4) (5, 4))).2 rfl,
   (c9_error_handling startBoard (mkMove (4, 4) (5, 4))).1.mpr (by decide)⟩

/-- C2: every move in `generate_legal_moves(c)` leads, when applied, to a board
on which `is_in_check(c)` is false: no legal move leaves or places the mover's
own king in check. -/
theorem c2_king_safety (bd : Board) (c : Color) (m : Move)
    (h : m ∈ bd.generate_legal_moves c) :
    (bd.make_move m).map (fun x => is_in_check x.1.grid c) = some false := by
  unfold Board.generate_legal_moves at h
  have hp := (List.mem_filter.mp h).2
  unfold legalProbe at hp
  cases heq : bd.make_move m with
  | none =>
    rw [heq] at hp
    simp at hp
  | some x =>
    obtain ⟨bd2, cap⟩ := x
    rw [heq] at hp
    simp only [Bool.and_eq_true, Bool.not_eq_true'] at hp
    simp [hp.1.1]

/-- Witness for C2: a legal king step on the kings-only board. -/
theorem c2_witness :
    (kingsBoard119.make_move (mkMove (9, 3) (8, 3))).map
      (fun x => is_in_check x.1.grid Color.r) = some false :=
  c2_king_safety kingsBoard119 Color.r (mkMove (9, 3) (8, 3)) (by decide)

/-- C5: `game_result` returns the draw code `'d'` exactly when the halfmove
clock has reached 120, with priority over the checkmate and no-legal-move
branches; at 119 plies with the game otherwise undecided it returns `none`. -/
theorem c5_no_capture_draw (bd : Board) :
    (bd.game_result = some ("d") ↔ 120 ≤ bd.halfmove_clock) ∧
      (bd.halfmove_clock = 119 → bd.is_checkmate Color.r = false →
        bd.is_checkmate Color.b = false →
        (bd.generate_legal_moves Color.r).isEmpty = false →
        (bd.generate_legal_moves Color.b).isEmpty = false →
        bd.game_result = none) := by
  constructor
  · constructor
    · intro h
      by_contra hc
      have hfalse : bd.is_60_move_rule_draw = false := by
        unfold Board.is_60_move_rule_draw
        exact decide_eq_false hc
      unfold Board.game_result at h
      rw [hfalse] at h
      simp only [Bool.false_eq_true, if_false] at h
      split at h
      · exact absurd (Option.some.inj h) (by decide)
      · split at h
        · exact absurd (Option.some.inj h) (by decide)
        · split at h
          · exact absurd (Option.some.inj h) (by decide)
          · split at h
            · exact absurd (Option.some.inj h) (by decide)
            · exact Option.noConfusion h
    · intro h
      unfold Board.game_result Board.is_60_move_rule_draw
      simp [h]
  · intro h119 hr hb lr lb
    unfold Board.game_result Board.is_60_move_rule_draw
    rw [h119]
    simp [hr, hb, lr, lb]

/-- Witness for C5: the kings-only board draws at clock 120 and is still
undecided at clock 119. -/
theorem c5_witness :
    kingsBoard120.game_result = some ("d") ∧ kingsBoard119.game_result = none :=
  ⟨(c5_no_capture_draw kingsBoard120).1.mpr (by decide),
   (c5_no_capture_draw kingsBoard119).2 rfl (by decide) (by decide) (by decide)
     (by decide)⟩

theorem betweenRows_symm (a b : Int) : betweenRows a b = betweenRows b a := by
  unfold betweenRows
  apply List.filter_congr
  intro x _
  rw [decide_eq_decide]
  exact or_comm

/-- C3: whenever both kings stand on the same column with every square
strictly between them empty, `is_in_check` is true for both colors at once
(the flying-general rule). -/
theorem c3_flying_general (bd : Board) (kr kc okr : Int)
    (hrk : find_king bd.grid Color.r = some (kr, kc))
    (hbk : find_king bd.grid Color.b = some (okr, kc))
    (hemp : ∀ rr ∈ betweenRows kr okr, gridGet bd.grid (rr, kc) = none) :
    is_in_check bd.grid Color.r = true ∧ is_in_check bd.grid Color.b = true := by
  have hother_r : Color.r.other = Color.b := rfl
  have hother_b : Color.b.other = Color.r := rfl
  have hemp' : ∀ rr ∈ betweenRows okr kr, gridGet bd.grid (rr, kc) = none := by
    rw [betweenRows_symm]
    exact hemp
  constructor
  · simp only [is_in_check, hrk, hother_r, hbk]
    split
    · rfl
    · rw [if_pos trivial]
      exact decide_eq_true hemp
  · simp only [is_in_check, hbk, hother_b, hrk]
    split
    · rfl
    · rw [if_pos trivial]
      exact decide_eq_true hemp'

/-- Witness for C3: the concrete facing-kings board. -/
theorem c3_witness :
    is_in_check facingKingsBoard.grid Color.r = true ∧
      is_in_check facingKingsBoard.grid Color.b = true :=
  c3_flying_general facingKingsBoard 9 4 0 (by decide) (by decide) (by decide)

theorem checkWalk_reaches (color : Color) (threshold : Nat) :
    ∀ (metas : List Meta) (cnt : Nat), cnt < threshold →
      threshold ≤ cnt + checkStreak color metas →
      checkWalk color threshold metas cnt = true := by
  intro metas
  induction metas with
  | nil =>
    intro cnt h1 h2
    unfold checkStreak at h2
    omega
  | cons m rest ih =>
    intro cnt h1 h2
    unfold checkStreak at h2
    unfold checkWalk
    by_cases hmc : m.moved_color = color
    · rw [if_pos hmc] at h2 ⊢
      cases hgc : m.gave_check with
      | false =>
        rw [hgc] at h2
        simp only [Bool.false_eq_true, if_false] at h2
        omega
      | true =>
        rw [hgc] at h2
        simp only [if_true] at h2 ⊢
        by_cases hth : threshold ≤ cnt + 1
        · rw [if_pos hth]
        · rw [if_neg hth]
          exact ih (cnt + 1) (by omega) (by omega)
    · rw [if_neg hmc] at h2 ⊢
      exact ih cnt h1 h2

/-- C4: if the meta history shows the side to move gave check on each of its
own most recent turns at least twice in a row (opponent entries skipped
without breaking the streak), then any move by that side that would give
check again is absent from `generate_legal_moves`. -/
theorem c4_perpetual_check (bd : Board) (A : Color) (m : Move)
    (hside : bd.side_to_move = A)
    (hstreak : 2 ≤ checkStreak A bd.meta_history)
    (hchk : (bd.make_move m).map (fun x => is_in_check x.1.grid A.other) = some true) :
    m ∉ bd.generate_legal_moves A := by
  intro hmem
  unfold Board.generate_legal_moves at hmem
  have hp := (List.mem_filter.mp hmem).2
  unfold legalProbe at hp
  cases heq : bd.make_move m with
  | none =>
    rw [heq] at hchk
    simp at hchk
  | some x =>
    obtain ⟨bd2, cap⟩ := x
    rw [heq] at hp hchk
    simp only [Option.map_some', Option.some.injEq] at hchk
    simp only [Bool.and_eq_true, Bool.not_eq_true'] at hp
    -- extract the structure of bd2 from make_move
    unfold Board.make_move at heq
    cases hpc : bd.piece_at m.from_sq with
    | none =>
      rw [hpc] at heq
      exact Option.noConfusion heq
    | some piece =>
      rw [hpc] at heq
      simp only [Option.some.injEq, Prod.mk.injEq] at heq
      obtain ⟨hb2, hcap⟩ := heq
      have hlc : bd2.is_long_check_after_last_move A 3 = true := by
        subst hb2
        simp only [Board.is_long_check_after_last_move, set_piece_meta, hside] at hchk ⊢
        rw [if_neg (by simp [hchk])]
        apply checkWalk_reaches A 3 _ 0 (by omega)
        simp only [checkStreak, set_piece_meta, hchk]
        simp
        omega
      rw [hlc] at hp
      simp at hp

/-- Witness for C4: on `perpetualBoard` (red already checked on its last two
turns) the checking rook move to (0,0) is excluded from red's legal moves. -/
theorem c4_witness :
    mkMove (5, 0) (0, 0) ∉ perpetualBoard.generate_legal_moves Color.r :=
  c4_perpetual_check perpetualBoard Color.r (mkMove (5, 0) (0, 0)) rfl
    (by decide) (by decide)

/-- C7 counterexample: on the initial position the red Cannon move from (7,1)
to (7,4) does NOT render as "炮二平五" — that cannon sits on red file 8
(column index 1 counted right-to-left), so the claim's stated string is wrong
for this move. -/
theorem c7_counterexample :
    startBoard.move_to_chinese (mkMove (7, 1) (7, 4)) ≠ "炮二平五" := by
  decide

/-- C7 (amended): on the initial position the red Cannon move from (7,1) to
(7,4) is a member of `generate_legal_moves('r')`, and `move_to_chinese`
applied to it before it is committed returns exactly "炮八平五". -/
theorem c7_opening :
    mkMove (7, 1) (7, 4) ∈ startBoard.generate_legal_moves Color.r ∧
      startBoard.move_to_chinese (mkMove (7, 1) (7, 4)) = "炮八平五" :=
  ⟨by decide, by decide⟩

/-- C8: every successful `make_move` pushes a meta entry whose `chase_pair` is
`none` on a capture; on a non-capture it is the pair (moved piece id, id of the
first enemy piece in the attack scan of the just-moved piece), or `none` when
that scan finds nothing. -/
theorem c8_chase_pair (bd : Board) (m : Move) (piece : Piece)
    (hsrc : bd.piece_at m.from_sq = some piece) :
    ∃ bd2 cap meta,
      bd.make_move m = some (bd2, cap) ∧
      bd2.meta_history = meta :: bd.meta_history ∧
      (cap.isSome = true → meta.chase_pair = none) ∧
      (cap = none →
        (squares_attacked_by_piece bd2.grid m.to_sq piece = [] →
          meta.chase_pair = none) ∧
        (∀ q rest, squares_attacked_by_piece bd2.grid m.to_sq piece = q :: rest →
          ∃ tp, gridGet bd2.grid q = some tp ∧ tp.color ≠ piece.color ∧
            meta.chase_pair = some (piece.pid, tp.pid))) := by
  refine ⟨moveResult bd m piece, bd.piece_at m.to_sq, moveMeta bd m piece,
    make_move_eq bd m piece hsrc, moveResult_meta bd m piece, ?_, ?_⟩
  · intro hcap
    obtain ⟨v, hv⟩ := Option.isSome_iff_exists.mp hcap
    simp [moveMeta, hv]
  · intro hcap
    constructor
    · intro hemp
      simp only [moveResult] at hemp
      simp [moveMeta, hcap, hemp]
    · intro q rest hq
      simp only [moveResult] at hq
      have hqmem : q ∈ squares_attacked_by_piece
          ((bd.set_piece m.to_sq (some piece)).set_piece m.from_sq none).grid
          m.to_sq piece := by
        rw [hq]
        exact List.mem_cons_self q rest
      obtain ⟨tp, hg, hne⟩ := attacked_enemy _ m.to_sq piece q hqmem
      refine ⟨tp, ?_, hne, ?_⟩
      · simpa [moveResult] using hg
      · simp [moveMeta, hcap, hq, hg, hne]

/-- Witness for C8: the red cannon's opening move to (7,4), which captures
nothing and attacks the black pawn at (3,4). -/
theorem c8_witness :
    ∃ bd2 cap meta,
      startBoard.make_move (mkMove (7, 1) (7, 4)) = some (bd2, cap) ∧
      bd2.meta_history = meta :: startBoard.meta_history ∧
      (cap.isSome = true → meta.chase_pair = none) ∧
      (cap = none →
        (squares_attacked_by_piece bd2.grid (mkMove (7, 1) (7, 4)).to_sq
            ⟨Color.r, PType.C, 26⟩ = [] → meta.chase_pair = none) ∧
        (∀ q rest, squares_attacked_by_piece bd2.grid (mkMove (7, 1) (7, 4)).to_sq
            ⟨Color.r, PType.C, 26⟩ = q :: rest →
          ∃ tp, gridGet bd2.grid q = some tp ∧ tp.color ≠ Color.r ∧
            meta.chase_pair = some (26, tp.pid))) :=
  c8_chase_pair startBoard (mkMove (7, 1) (7, 4)) ⟨Color.r, PType.C, 26⟩ (by decide)

theorem piece_at_spec (bd : Board) (sq : Sq) (p : Piece)
    (h : bd.piece_at sq = some p) :
    in_bounds sq.1 sq.2 = true ∧ gridGet bd.grid sq = some p := by
  unfold Board.piece_at at h
  by_cases hin : in_bounds sq.1 sq.2 = true
  · rw [if_pos hin] at h
    exact ⟨hin, h⟩
  · rw [if_neg hin] at h
    exact Option.noConfusion h

theorem sq_toNat_ne (a b : Sq) (ha : in_bounds a.1 a.2 = true)
    (hb : in_bounds b.1 b.2 = true) (hne : a ≠ b) :
    a.1.toNat ≠ b.1.toNat ∨ a.2.toNat ≠ b.2.toNat := by
  obtain ⟨_, _, ha3, ha4⟩ := in_bounds_toNat _ _ ha
  obtain ⟨_, _, hb3, hb4⟩ := in_bounds_toNat _ _ hb
  by_contra hcon
  push_neg at hcon
  obtain ⟨h1, h2⟩ := hcon
  apply hne
  have e1 : a.1 = b.1 := by omega
  have e2 : a.2 = b.2 := by omega
  exact Prod.ext e1 e2

/-- C1 counterexample: a move whose source square is occupied but whose
destination lies off the board (so `set_piece` silently drops the piece) is
not undone by `undo_move`: the grid is not restored.  The claim's stated
precondition — only that the source square be occupied — is therefore too
weak. -/
theorem c1_counterexample :
    c1Board.piece_at (5, 0) ≠ none ∧
      (c1Board.make_move (mkMove (5, 0) (10, 0))).map
        (fun x => decide (x.1.undo_move.grid = c1Board.grid)) = some false := by
  decide

/-- C1 (amended): for a well-formed board, a move with an occupied source
square AND an on-board destination square round-trips: `make_move` then
`undo_move` restores the grid (captured piece back on its square),
`side_to_move`, `halfmove_clock`, and both stack lengths exactly. -/
theorem c1_round_trip (bd : Board) (m : Move) (piece : Piece)
    (hwf : WFGrid bd.grid)
    (hsrc : bd.piece_at m.from_sq = some piece)
    (hto : in_bounds m.to_sq.1 m.to_sq.2 = true) :
    ∃ bd2 cap, bd.make_move m = some (bd2, cap) ∧
      bd2.undo_move.grid = bd.grid ∧
      bd2.undo_move.side_to_move = bd.side_to_move ∧
      bd2.undo_move.halfmove_clock = bd.halfmove_clock ∧
      bd2.undo_move.history.length = bd.history.length ∧
      bd2.undo_move.meta_history.length = bd.meta_history.length := by
  obtain ⟨hfr, hcell⟩ := piece_at_spec bd m.from_sq piece hsrc
  have hg2 : (moveResult bd m piece).grid =
      gridSet (gridSet bd.grid m.to_sq (some piece)) m.from_sq none := by
    simp only [moveResult]
    rw [set_piece_grid, if_pos hfr, set_piece_grid, if_pos hto]
  have hhist : (moveResult bd m piece).history =
      (m, bd.piece_at m.to_sq, bd.side_to_move) :: bd.history := by
    simp only [moveResult, set_piece_history]
  have hmetaR := moveResult_meta bd m piece
  have hundo : (moveResult bd m piece).undo_move =
      { grid := gridSet (gridSet
            (gridSet (gridSet bd.grid m.to_sq (some piece)) m.from_sq none)
            m.from_sq
            (gridGet (gridSet (gridSet bd.grid m.to_sq (some piece)) m.from_sq none)
              m.to_sq))
          m.to_sq (bd.piece_at m.to_sq)
        side_to_move := bd.side_to_move
        history := bd.history
        meta_history := bd.meta_history
        halfmove_clock := bd.halfmove_clock } := by
    simp [Board.undo_move, hhist, hmetaR, Board.piece_at, set_piece_grid,
      set_piece_meta, set_piece_side, set_piece_history, set_piece_halfmove,
      hg2, hto, hfr, moveMeta]
  refine ⟨moveResult bd m piece, bd.piece_at m.to_sq,
    make_move_eq bd m piece hsrc, ?_, ?_, ?_, ?_, ?_⟩
  · rw [hundo]
    show gridSet _ _ _ = bd.grid
    have wf1 := WFGrid_gridSet bd.grid m.to_sq (some piece) hwf
    have wf2 := WFGrid_gridSet _ m.from_sq none wf1
    have wf3 := WFGrid_gridSet _ m.from_sq
      (gridGet (gridSet (gridSet bd.grid m.to_sq (some piece)) m.from_sq none) m.to_sq) wf2
    have wf4 := WFGrid_gridSet _ m.to_sq (bd.piece_at m.to_sq) wf3
    apply grid_ext _ _ wf4 hwf
    intro i j hi hj
    have hq : in_bounds (Int.ofNat i) (Int.ofNat j) = true := by
      unfold in_bounds ROWS COLS
      apply decide_eq_true
      refine ⟨?_, ?_, ?_, ?_⟩ <;> simp only [Int.ofNat_eq_coe] <;> omega
    by_cases hqt : ((Int.ofNat i, Int.ofNat j) : Sq) = m.to_sq
    · rw [hqt]
      rw [gridGet_gridSet_self _ _ _ wf3 hto]
      unfold Board.piece_at
      rw [if_pos hto]
    · have hnet := sq_toNat_ne _ m.to_sq hq hto hqt
      by_cases hqf : ((Int.ofNat i, Int.ofNat j) : Sq) = m.from_sq
      · have hneft : m.from_sq.1.toNat ≠ m.to_sq.1.toNat ∨
            m.from_sq.2.toNat ≠ m.to_sq.2.toNat := by
          rw [← hqf]
          exact hnet
        rw [hqf]
        rw [gridGet_gridSet_other _ m.to_sq m.from_sq _ (hneft.imp Ne.symm Ne.symm)]
        rw [gridGet_gridSet_self _ _ _ wf2 hfr]
        rw [gridGet_gridSet_other _ m.from_sq m.to_sq _ hneft]
        rw [gridGet_gridSet_self _ _ _ hwf hto]
        rw [hcell]
      · have hnef := sq_toNat_ne _ m.from_sq hq hfr hqf
        rw [gridGet_gridSet_other _ m.to_sq _ _ (hnet.imp Ne.symm Ne.symm)]
        rw [gridGet_gridSet_other _ m.from_sq _ _ (hnef.imp Ne.symm Ne.symm)]
        rw [gridGet_gridSet_other _ m.from_sq _ _ (hnef.imp Ne.symm Ne.symm)]
        rw [gridGet_gridSet_other _ m.to_sq _ _ (hnet.imp Ne.symm Ne.symm)]
  · rw [hundo]
  · rw [hundo]
  · rw [hundo]
  · rw [hundo]

/-- Witness for C1: the rook move (5,0) → (5,4) on `c1Board` round-trips. -/
theorem c1_witness :
    ∃ bd2 cap, c1Board.make_move (mkMove (5, 0) (5, 4)) = some (bd2, cap) ∧
      bd2.undo_move.grid = c1Board.grid ∧
      bd2.undo_move.side_to_move = c1Board.side_to_move ∧
      bd2.undo_move.halfmove_clock = c1Board.halfmove_clock ∧
      bd2.undo_move.history.length = c1Board.history.length ∧
      bd2.undo_move.meta_history.length = c1Board.meta_history.length :=
  c1_round_trip c1Board (mkMove (5, 0) (5, 4)) ⟨Color.r, PType.R, 3⟩
    (by constructor <;> decide) (by decide) (by decide)

theorem in_bounds_iff (a b : Int) :
    in_bounds a b = true ↔ (0 ≤ a ∧ a < 10 ∧ 0 ≤ b ∧ b < 9) := by
  unfold in_bounds ROWS COLS
  constructor
  · exact of_decide_eq_true
  · exact decide_eq_true

/-- C6: a Cannon (at `(r,c)`, aiming along a board direction `(dr,dc)` at the
occupied square `n` steps away) cannot capture with an empty line in between,
and with exactly one screen piece in between (of either color) the first
occupied square beyond the screen is a generated move iff it holds an enemy
piece. -/
theorem c6_cannon_screen (bd : Board) (r c dr dc : Int) (n : Nat) (cp tp : Piece)
    (hd : ((dr, dc) : Int × Int) ∈ orthoDirs) (hn : 1 ≤ n)
    (hrc : in_bounds r c = true)
    (hcp : gridGet bd.grid (r, c) = some cp) (hC : cp.ptype = PType.C)
    (htin : in_bounds (raySq r c dr dc n).1 (raySq r c dr dc n).2 = true)
    (htp : gridGet bd.grid (raySq r c dr dc n) = some tp) :
    ((∀ k : Nat, 1 ≤ k → k < n → gridGet bd.grid (raySq r c dr dc k) = none) →
        tp.color ≠ cp.color →
        mkMove (r, c) (raySq r c dr dc n) ∉ moves_for_piece bd.grid (r, c) cp) ∧
    (∀ j : Nat, 1 ≤ j → j < n →
        (gridGet bd.grid (raySq r c dr dc j)).isSome = true →
        (∀ k : Nat, 1 ≤ k → k < n → k ≠ j → gridGet bd.grid (raySq r c dr dc k) = none) →
        (mkMove (r, c) (raySq r c dr dc n) ∈ moves_for_piece bd.grid (r, c) cp ↔
          tp.color ≠ cp.color)) := by
  have hdp : (dr = 1 ∧ dc = 0) ∨ (dr = -1 ∧ dc = 0) ∨
      (dr = 0 ∧ dc = 1) ∨ (dr = 0 ∧ dc = -1) := by
    simpa [orthoDirs, Prod.mk.injEq] using hd
  have hrc' := (in_bounds_iff r c).mp hrc
  have htin' := (in_bounds_iff _ _).mp htin
  simp only [raySq] at htin'
  have hn9 : n ≤ 9 := by
    rcases hdp with ⟨rfl, rfl⟩ | ⟨rfl, rfl⟩ | ⟨rfl, rfl⟩ | ⟨rfl, rfl⟩ <;> omega
  have hF1 : ∀ k : Nat, k ≤ n →
      in_bounds (raySq r c dr dc k).1 (raySq r c dr dc k).2 = true := by
    intro k hk
    rw [in_bounds_iff]
    simp only [raySq]
    rcases hdp with ⟨rfl, rfl⟩ | ⟨rfl, rfl⟩ | ⟨rfl, rfl⟩ | ⟨rfl, rfl⟩ <;> omega
  have hinj : ∀ k1 k2 : Nat, raySq r c dr dc k1 = raySq r c dr dc k2 → k1 = k2 := by
    intro k1 k2 h
    unfold raySq at h
    rw [Prod.mk.injEq] at h
    rcases hdp with ⟨rfl, rfl⟩ | ⟨rfl, rfl⟩ | ⟨rfl, rfl⟩ | ⟨rfl, rfl⟩ <;> omega
  have hmoves : moves_for_piece bd.grid (r, c) cp =
      orthoDirs.flatMap
        (fun d => cannonRayMoves bd.grid cp.color (r, c) (raySquares r c d.1 d.2)) := by
    unfold moves_for_piece
    simp only [hC]
  have hother : ∀ d' : Int × Int, d' ∈ orthoDirs → d' ≠ (dr, dc) →
      mkMove (r, c) (raySq r c dr dc n) ∉
        cannonRayMoves bd.grid cp.color (r, c) (raySquares r c d'.1 d'.2) := by
    rintro ⟨d1, d2⟩ hd' hne hmem
    have hts : raySq r c dr dc n ∈ raySteps 10 r c d1 d2 :=
      cannonRayMoves_to_sq _ _ _ _ _ hmem
    obtain ⟨k, hk1, hk2, hkq⟩ := mem_raySteps d1 d2 10 r c _ hts
    have hd'p : (d1 = 1 ∧ d2 = 0) ∨ (d1 = -1 ∧ d2 = 0) ∨
        (d1 = 0 ∧ d2 = 1) ∨ (d1 = 0 ∧ d2 = -1) := by
      simpa [orthoDirs, Prod.mk.injEq] using hd'
    unfold raySq at hkq
    rw [Prod.mk.injEq] at hkq
    rcases hdp with ⟨rfl, rfl⟩ | ⟨rfl, rfl⟩ | ⟨rfl, rfl⟩ | ⟨rfl, rfl⟩ <;>
      rcases hd'p with ⟨rfl, rfl⟩ | ⟨rfl, rfl⟩ | ⟨rfl, rfl⟩ | ⟨rfl, rfl⟩ <;>
      first
        | exact hne rfl
        | omega
  constructor
  · -- zero screens: the occupied target is not a destination
    intro hemp henemy hmem
    rw [hmoves] at hmem
    obtain ⟨d', hd', hmem'⟩ := List.mem_flatMap.mp hmem
    by_cases hdd : d' = (dr, dc)
    · subst hdd
      dsimp only at hmem'
      obtain ⟨nn, rfl⟩ : ∃ nn, n = nn + 1 := ⟨n - 1, by omega⟩
      have hpre : ∀ q ∈ stepList r c dr dc nn, gridGet bd.grid q = none := by
        intro q hq
        obtain ⟨k, hk1, hk2, hkq⟩ := mem_stepList dr dc nn r c q hq
        rw [hkq]
        exact hemp k hk1 (by omega)
      have hdec := raySteps_decomp dr dc (nn + 1) 10 r c (by omega)
        (fun k _ hk2 => hF1 k hk2)
      rw [stepList_succ, List.append_assoc] at hdec
      unfold raySquares at hmem'
      rw [hdec, cannonRayMoves_empties _ _ _ _ _ hpre] at hmem'
      rcases List.mem_append.mp hmem' with h1 | h2
      · obtain ⟨q, hqmem, hqeq⟩ := List.mem_map.mp h1
        obtain ⟨k, hk1, hk2, hkq⟩ := mem_stepList dr dc nn r c q hqmem
        have hqt : q = raySq r c dr dc (nn + 1) := congrArg Move.to_sq hqeq
        have := hinj k (nn + 1) (by rw [← hkq, hqt])
        omega
      · simp only [List.singleton_append, cannonRayMoves_cons, htp] at h2
        have hts : raySq r c dr dc (nn + 1) ∈
            raySteps (10 - (nn + 1)) (r + ((nn + 1 : Nat) : Int) * dr)
              (c + ((nn + 1 : Nat) : Int) * dc) dr dc :=
          cannonScreenMoves_to_sq _ _ _ _ _ h2
        obtain ⟨k, hk1, hk2, hkq⟩ := mem_raySteps dr dc _ _ _ _ hts
        rw [raySq_add] at hkq
        have := hinj (nn + 1) ((nn + 1) + k) hkq
        omega
    · exact absurd hmem' (hother d' hd' hdd)
  · -- exactly one screen: capturable iff enemy-occupied
    intro j hj1 hj2 hjocc hemp2
    obtain ⟨sp, hsp⟩ := Option.isSome_iff_exists.mp hjocc
    obtain ⟨jj, rfl⟩ : ∃ jj, j = jj + 1 := ⟨j - 1, by omega⟩
    obtain ⟨mm, hmmeq⟩ : ∃ mm, n - (jj + 1) = mm + 1 := ⟨n - (jj + 1) - 1, by omega⟩
    have hpre1 : ∀ q ∈ stepList r c dr dc jj, gridGet bd.grid q = none := by
      intro q hq
      obtain ⟨k, hk1, hk2, hkq⟩ := mem_stepList dr dc jj r c q hq
      rw [hkq]
      exact hemp2 k hk1 (by omega) (by omega)
    have hmid : ∀ q ∈ stepList (r + ((jj + 1 : Nat) : Int) * dr)
        (c + ((jj + 1 : Nat) : Int) * dc) dr dc mm, gridGet bd.grid q = none := by
      intro q hq
      obtain ⟨k, hk1, hk2, hkq⟩ := mem_stepList dr dc mm _ _ q hq
      rw [hkq, raySq_add]
      exact hemp2 ((jj + 1) + k) (by omega) (by omega) (by omega)
    have hdecj := raySteps_decomp dr dc (jj + 1) 10 r c (by omega)
      (fun k _ hk2 => hF1 k (by omega))
    rw [stepList_succ, List.append_assoc] at hdecj
    have hdecn := raySteps_decomp dr dc (mm + 1) (10 - (jj + 1))
      (r + ((jj + 1 : Nat) : Int) * dr) (c + ((jj + 1 : Nat) : Int) * dc)
      (by omega)
      (by
        intro k hk1 hk2
        rw [raySq_add]
        exact hF1 ((jj + 1) + k) (by omega))
    rw [stepList_succ, List.append_assoc] at hdecn
    rw [hdecn] at hdecj
    have en : (jj + 1) + (mm + 1) = n := by omega
    have hform : cannonRayMoves bd.grid cp.color (r, c) (raySquares r c dr dc) =
        (stepList r c dr dc jj).map (mkMove (r, c)) ++
          (if tp.color ≠ cp.color then [mkMove (r, c) (raySq r c dr dc n)] else []) := by
      unfold raySquares
      rw [hdecj, cannonRayMoves_empties _ _ _ _ _ hpre1]
      congr 1
      simp only [List.singleton_append, cannonRayMoves_cons, hsp]
      rw [cannonScreenMoves_empties _ _ _ _ _ hmid]
      simp only [List.singleton_append, cannonScreenMoves_cons]
      rw [raySq_add, en, htp]
    have hnotpre : mkMove (r, c) (raySq r c dr dc n) ∉
        (stepList r c dr dc jj).map (mkMove (r, c)) := by
      intro hin
      obtain ⟨q, hqmem, hqeq⟩ := List.mem_map.mp hin
      obtain ⟨k, hk1, hk2, hkq⟩ := mem_stepList dr dc jj r c q hqmem
      have hqt : q = raySq r c dr dc n := congrArg Move.to_sq hqeq
      have := hinj k n (by rw [← hkq, hqt])
      omega
    constructor
    · intro hmem
      rw [hmoves] at hmem
      obtain ⟨d', hd', hmem'⟩ := List.mem_flatMap.mp hmem
      by_cases hdd : d' = (dr, dc)
      · subst hdd
        dsimp only at hmem'
        rw [hform] at hmem'
        rcases List.mem_append.mp hmem' with h1 | h2
        · exact absurd h1 hnotpre
        · by_cases hec : tp.color ≠ cp.color
          · exact hec
          · rw [if_neg hec] at h2
            simp at h2
      · exact absurd hmem' (hother d' hd' hdd)
    · intro henemy
      rw [hmoves]
      apply List.mem_flatMap.mpr
      refine ⟨(dr, dc), hd, ?_⟩
      dsimp only
      rw [hform, if_pos henemy]
      exact List.mem_append.mpr (Or.inr (List.mem_singleton.mpr rfl))

/-- Witness for C6: the cannon at (5,0) aiming right at the black rook six
squares away, with the black pawn at (5,3) as the only intervening piece. -/
theorem c6_witness :
    ((∀ k : Nat, 1 ≤ k → k < 6 →
        gridGet cannonTestBoard.grid (raySq 5 0 0 1 k) = none) →
      (⟨Color.b, PType.R, 5⟩ : Piece).color ≠ (⟨Color.r, PType.C, 3⟩ : Piece).color →
      mkMove (5, 0) (raySq 5 0 0 1 6) ∉
        moves_for_piece cannonTestBoard.grid (5, 0) ⟨Color.r, PType.C, 3⟩) ∧
    (∀ j : Nat, 1 ≤ j → j < 6 →
      (gridGet cannonTestBoard.grid (raySq 5 0 0 1 j)).isSome = true →
      (∀ k : Nat, 1 ≤ k → k < 6 → k ≠ j →
        gridGet cannonTestBoard.grid (raySq 5 0 0 1 k) = none) →
      (mkMove (5, 0) (raySq 5 0 0 1 6) ∈
          moves_for_piece cannonTestBoard.grid (5, 0) ⟨Color.r, PType.C, 3⟩ ↔
        (⟨Color.b, PType.R, 5⟩ : Piece).color ≠ (⟨Color.r, PType.C, 3⟩ : Piece).color)) :=
  c6_cannon_screen cannonTestBoard 5 0 0 1 6 ⟨Color.r, PType.C, 3⟩ ⟨Color.b, PType.R, 5⟩
    (by decide) (by decide) (by decide) (by decide) rfl (by decide) (by decide)

end XiangqiRules
